import Mathlib

/-!
# Pothos: the dynamic call protocol of `Proxy`, the block registry and the affinity panel

A shallow embedding of

* `include/Pothos/Proxy/ProxyImpl.hpp` (the template methods of `Proxy` and the
  helpers of namespace `Detail`),
* `include/Pothos/Framework/BlockRegistry.hpp` (the registry interface),
* `pothos-gui/AffinitySupport/AffinityPanel.cpp` (the zone tabs of the affinity panel).

The collaborators that the template code calls into (`ProxyEnvironment`,
`ProxyHandle`, `Object`) are parameters of the embedding: a `World` supplies their
behaviour as state transformers over an arbitrary collaborator state, and every call
into a collaborator is appended to a trace, so that statements of the form
"dispatches exactly once" or "never touches the environment" can be read off the trace.
-/

namespace Pothos

/-! ## Data model -/

/-- Identity of a `ProxyEnvironment` instance. -/
abbrev EnvId := Nat

/-- Identity of a `ProxyHandle` instance. -/
abbrev HandleId := Nat

/-- Type identifier of a type other than `Proxy`. -/
abbrev TypeId := Nat

/-- Modelled from the spec: the exception classes are declared outside the sources;
these are the error kinds of the taxonomy in section 7, plus a catch-all. -/
inductive Exception where
  | ConversionError
  | NullProxyError
  | NoSuchMethodError
  | EnvironmentExpiredError
  | UnknownFactoryPathError
  | other (what : String)
deriving DecidableEq, Repr

/-- The ways an operation can end without a value: a C++ exception that the caller can
catch, a failed `assert(...)`, or the dereference of a null `shared_ptr`. -/
inductive Failure where
  | thrown (e : Exception)
  | assertFailed
  | nullDeref
deriving DecidableEq, Repr

/-- Modelled from the spec: `Proxy/Proxy.hpp` is not among the sources. A `Proxy` is a
reference to its owning environment together with an environment-local handle; the
two accessors used by the template code, `getEnvironment()` and `getHandle()`, return
nullable shared pointers, so both parts are optional. -/
structure Proxy where
  environment : Option EnvId
  handle : Option HandleId
deriving DecidableEq, Repr

/-- The default-constructed `Proxy`: no environment, no handle. -/
def Proxy.null : Proxy := ⟨none, none⟩

/-- A value of a type other than `Proxy`, as it is handed to a template parameter. -/
structure Value where
  typeId : TypeId
  payload : Nat
deriving DecidableEq, Repr

/-- A local `Object` produced by an environment. -/
structure Object where
  typeId : TypeId
  payload : Nat
deriving DecidableEq, Repr

/-- An element of a template argument pack, or the value of a templated return type:
the overloads in `Detail` select on whether the (decayed) type is `Proxy`. -/
inductive Any where
  | proxy (p : Proxy)
  | value (v : Value)
deriving DecidableEq, Repr

/-- A template type argument: `std::is_same<T, Proxy>` holds exactly for `proxy`. -/
inductive Target where
  | proxy
  | other (t : TypeId)
deriving DecidableEq, Repr

/-- One call into a collaborator. -/
inductive Event where
  | makeProxy (env : EnvId) (v : Value)
  | handleCall (h : HandleId) (name : String) (args : List Proxy)
  | convertProxyToObject (env : EnvId) (p : Proxy)
  | objectConvert (o : Object) (t : Target)
deriving DecidableEq, Repr

/-- The collaborators of the template code, over a collaborator state `σ`:
`ProxyEnvironment::makeProxy`, `ProxyHandle::call`,
`ProxyEnvironment::convertProxyToObject` and `Object::convert<T>`. -/
structure World (σ : Type) where
  makeProxy : EnvId → Value → σ → Except Failure Proxy × σ
  handleCall : HandleId → String → List Proxy → σ → Except Failure Proxy × σ
  convertProxyToObject : EnvId → Proxy → σ → Except Failure Object × σ
  objectConvert : Object → Target → σ → Except Failure Any × σ

/-- The state threaded through the embedding: the collaborator state and the trace of
calls into collaborators, oldest first. -/
structure Sys (σ : Type) where
  world : σ
  trace : List Event
deriving DecidableEq, Repr

variable {σ : Type}

/-! ## `ProxyImpl.hpp` -/

/-- Embeds `Proxy::getEnvironment()`. -/
def Proxy.getEnvironment (p : Proxy) : Option EnvId := p.environment

/-- Embeds `Proxy::getHandle()`. -/
def Proxy.getHandle (p : Proxy) : Option HandleId := p.handle

/-- The expression `env->makeProxy(value)` on a nullable environment pointer. -/
def envMakeProxy (W : World σ) (env : Option EnvId) (v : Value) (s : Sys σ) :
    Except Failure Proxy × Sys σ :=
  match env with
  | none => (.error .nullDeref, s)
  | some E =>
    match W.makeProxy E v s.world with
    | (r, w) => (r, ⟨w, s.trace ++ [.makeProxy E v]⟩)

/-- The expression `env->convertProxyToObject(p)` on a nullable environment pointer. -/
def envConvertProxyToObject (W : World σ) (env : Option EnvId) (p : Proxy) (s : Sys σ) :
    Except Failure Object × Sys σ :=
  match env with
  | none => (.error .nullDeref, s)
  | some E =>
    match W.convertProxyToObject E p s.world with
    | (r, w) => (r, ⟨w, s.trace ++ [.convertProxyToObject E p]⟩)

/-- The expression `obj.convert<T>()`. -/
def objConvert (W : World σ) (o : Object) (T : Target) (s : Sys σ) :
    Except Failure Any × Sys σ :=
  match W.objectConvert o T s.world with
  | (r, w) => (r, ⟨w, s.trace ++ [.objectConvert o T]⟩)

/-- The expression `handle->call(name, proxyArgs.data(), sizeof...(args))` on a
non-null handle. -/
def handleCall (W : World σ) (h : HandleId) (name : String) (proxyArgs : List Proxy)
    (s : Sys σ) : Except Failure Proxy × Sys σ :=
  match W.handleCall h name proxyArgs s.world with
  | (r, w) => (r, ⟨w, s.trace ++ [.handleCall h name proxyArgs]⟩)

/-- Embeds `Proxy::convert<ValueType>()`:
`this->getEnvironment()->convertProxyToObject(*this).convert<ValueType>()`. -/
def Proxy.convert (W : World σ) (T : Target) (p : Proxy) (s : Sys σ) :
    Except Failure Any × Sys σ :=
  match envConvertProxyToObject W p.getEnvironment p s with
  | (.error f, s1) => (.error f, s1)
  | (.ok obj, s1) => objConvert W obj T s1

/-- Embeds `Detail::convertProxy<T>(p)`: the overload for `T` other than `Proxy` returns
`p.convert<T>()`, the overload for `T = Proxy` returns `p`. -/
def Detail.convertProxy (W : World σ) (T : Target) (p : Proxy) (s : Sys σ) :
    Except Failure Any × Sys σ :=
  match T with
  | .other t => p.convert W (.other t) s
  | .proxy => (.ok (.proxy p), s)

/-- Embeds `Detail::makeProxy(env, value)`: the overload for a non-`Proxy` value returns
`env->makeProxy(value)`, the overload for a `Proxy` copies the input proxy and leaves
the environment parameter unused. -/
def Detail.makeProxy (W : World σ) (env : Option EnvId) (value : Any) (s : Sys σ) :
    Except Failure Proxy × Sys σ :=
  match value with
  | .value v => envMakeProxy W env v s
  | .proxy p => (.ok p, s)

/-- The braced initialiser of `proxyArgs` in `Proxy::call`:
`Detail::makeProxy(this->getEnvironment(), args)...`, evaluated left to right; the
first element that fails ends the evaluation. -/
def proxyArgs (W : World σ) (env : Option EnvId) :
    List Any → Sys σ → Except Failure (List Proxy) × Sys σ
  | [], s => (.ok [], s)
  | a :: rest, s =>
    match Detail.makeProxy W env a s with
    | (.error f, s1) => (.error f, s1)
    | (.ok q, s1) =>
      match proxyArgs W env rest s1 with
      | (.error f, s2) => (.error f, s2)
      | (.ok qs, s2) => (.ok (q :: qs), s2)

/-- The untyped `Proxy::call(name, args...)`. With `ndebug` the `assert(handle)` is
compiled out and a null handle is dereferenced by `handle->call`. -/
def Proxy.call (W : World σ) (ndebug : Bool) (p : Proxy) (name : String)
    (args : List Any) (s : Sys σ) : Except Failure Proxy × Sys σ :=
  match proxyArgs W p.getEnvironment args s with
  | (.error f, s1) => (.error f, s1)
  | (.ok qs, s1) =>
    match p.getHandle with
    | none => (.error (if ndebug then .nullDeref else .assertFailed), s1)
    | some h => handleCall W h name qs s1

/-- The typed `Proxy::call<ReturnType>(name, args...)`:
`Proxy ret = this->call(name, args...); return Detail::convertProxy<ReturnType>(ret);`. -/
def Proxy.callTyped (W : World σ) (ndebug : Bool) (R : Target) (p : Proxy)
    (name : String) (args : List Any) (s : Sys σ) : Except Failure Any × Sys σ :=
  match p.call W ndebug name args s with
  | (.error f, s1) => (.error f, s1)
  | (.ok ret, s1) => Detail.convertProxy W R ret s1

/-- Embeds `Proxy::operator ValueType()`: `this->convert<ValueType>()`. -/
def Proxy.operatorValueType (W : World σ) (T : Target) (p : Proxy) (s : Sys σ) :
    Except Failure Any × Sys σ :=
  p.convert W T s

/-- Embeds `Proxy::callProxy(name, args...)`: `this->call(name, args...)`. -/
def Proxy.callProxy (W : World σ) (ndebug : Bool) (p : Proxy) (name : String)
    (args : List Any) (s : Sys σ) : Except Failure Proxy × Sys σ :=
  p.call W ndebug name args s

/-- Embeds `Proxy::callVoid(name, args...)`: `this->call(name, args...)`, result dropped. -/
def Proxy.callVoid (W : World σ) (ndebug : Bool) (p : Proxy) (name : String)
    (args : List Any) (s : Sys σ) : Except Failure Unit × Sys σ :=
  match p.call W ndebug name args s with
  | (.error f, s1) => (.error f, s1)
  | (.ok _, s1) => (.ok (), s1)

/-- Embeds `Proxy::get<ReturnType>(name)`: `this->call<ReturnType>("get:"+name)`. -/
def Proxy.get (W : World σ) (ndebug : Bool) (R : Target) (p : Proxy) (name : String)
    (s : Sys σ) : Except Failure Any × Sys σ :=
  p.callTyped W ndebug R ("get:" ++ name) [] s

/-- Embeds `Proxy::set(name, value)`: `this->call("set:"+name, value)`, result dropped. -/
def Proxy.set (W : World σ) (ndebug : Bool) (p : Proxy) (name : String) (value : Any)
    (s : Sys σ) : Except Failure Unit × Sys σ :=
  match p.call W ndebug ("set:" ++ name) [value] s with
  | (.error f, s1) => (.error f, s1)
  | (.ok _, s1) => (.ok (), s1)

/-- Embeds `Proxy::operator()(args...)`: `this->call("()", args...)`. -/
def Proxy.operatorCall (W : World σ) (ndebug : Bool) (p : Proxy) (args : List Any)
    (s : Sys σ) : Except Failure Proxy × Sys σ :=
  p.call W ndebug "()" args s

/-- The calls to `makeProxy` of environment `E` that wrapping an argument list asks
for: one for each argument that is not a `Proxy`, in the order of the arguments. -/
def wrapEvents (E : EnvId) : List Any → List Event
  | [] => []
  | .value v :: rest => .makeProxy E v :: wrapEvents E rest
  | .proxy _ :: rest => wrapEvents E rest

/-- A small concrete world: the collaborator state is the next free handle number.
`makeProxy` stores the value under a fresh handle of its environment; a handle answers
every name except `"missing"` with a fresh proxy of environment `0`;
`convertProxyToObject` yields an object carrying the handle number; an `Object`
converts to every value type and has no conversion to `Proxy`. -/
def sampleWorld : World Nat where
  makeProxy := fun E _ w => (.ok ⟨some E, some w⟩, w + 1)
  handleCall := fun _ name _ w =>
    if name = "missing" then (.error (.thrown .NoSuchMethodError), w)
    else (.ok ⟨some 0, some w⟩, w + 1)
  convertProxyToObject := fun _ p w =>
    match p.handle with
    | some h => (.ok ⟨0, h⟩, w)
    | none => (.error (.thrown .NullProxyError), w)
  objectConvert := fun o T w =>
    match T with
    | .other t => (.ok (.value ⟨t, o.payload⟩), w)
    | .proxy => (.error (.thrown .ConversionError), w)

/-- The initial state of `sampleWorld`: handles are numbered from `10`, nothing has
been called yet. -/
def sampleStart : Sys Nat := ⟨10, []⟩

/-- A world whose environments have been torn down: `makeProxy` and
`convertProxyToObject` fail with `EnvironmentExpiredError`; handles and objects
behave as in `sampleWorld`. -/
def expiredWorld : World Nat where
  makeProxy := fun _ _ w => (.error (.thrown .EnvironmentExpiredError), w)
  handleCall := sampleWorld.handleCall
  convertProxyToObject := fun _ _ w => (.error (.thrown .EnvironmentExpiredError), w)
  objectConvert := sampleWorld.objectConvert

/-- Specification of the conversion of an argument list for a receiver of environment
`E`, started in collaborator state `w`. The arguments are taken in their order. A
`Proxy` is kept as it is and costs no call. Any other value is handed to `makeProxy`
of `E`, in the state that the conversions before it have left, and is replaced by the
proxy that this call returns. The first `makeProxy` that fails ends the conversion.
The result is the list of proxies or the failure, the collaborator state after the
last call, and the calls that were made, oldest first. -/
def wrapSpec (W : World σ) (E : EnvId) :
    List Any → σ → Except Failure (List Proxy) × σ × List Event
  | [], w => (.ok [], w, [])
  | .proxy p :: rest, w =>
    match wrapSpec W E rest w with
    | (.ok qs, w1, calls) => (.ok (p :: qs), w1, calls)
    | (.error f, w1, calls) => (.error f, w1, calls)
  | .value v :: rest, w =>
    match W.makeProxy E v w with
    | (.error f, w1) => (.error f, w1, [.makeProxy E v])
    | (.ok q, w1) =>
      match wrapSpec W E rest w1 with
      | (.ok qs, w2, calls) => (.ok (q :: qs), w2, .makeProxy E v :: calls)
      | (.error f, w2, calls) => (.error f, w2, .makeProxy E v :: calls)

/-! ## `BlockRegistry.hpp`

The header declares the constructor, `make` and `doesBlockExist`; their bodies are not
among the sources. -/

namespace BlockRegistry

/-- Modelled from the spec: `Callable/Callable.hpp` is not among the sources. The
declared return type of a factory: the header accepts `Block*` and `Topology*`. -/
inductive ReturnType where
  | Block
  | Topology
  | other (t : TypeId)
deriving DecidableEq, Repr

/-- Modelled from the spec: `Callable/Callable.hpp` is not among the sources. A factory
callable: its declared return type and the identity of the function it wraps. -/
structure Callable where
  returnType : ReturnType
  function : Nat
deriving DecidableEq, Repr

/-- The reasons for which a registration is logged and dropped. -/
inductive RegistrationError where
  | malformedPath (path : String)
  | duplicatePath (path : String)
  | disallowedReturnType (path : String)
deriving DecidableEq, Repr

/-- Modelled from the spec: the registry table is defined outside the sources. The
process-wide table from canonical paths to factories, in registration order, and the
messages handed to the logging collaborator. -/
structure Registry where
  table : List (String × Callable)
  logged : List RegistrationError
deriving DecidableEq, Repr

/-- The registry of a process in which nothing has been registered. -/
def Registry.empty : Registry := ⟨[], []⟩

/-- The canonical path of the header comment: "The resulting factory path will be
/blocks/path". -/
def canonicalPath (path : String) : String := "/blocks" ++ path

/-- The factory registered under a canonical path, if any. -/
def Registry.find (reg : Registry) (key : String) : Option Callable :=
  (reg.table.find? (fun e => e.1 == key)).map (fun e => e.2)

/-- The header comment: "The return type of the call must be Block* or Topology*". -/
def acceptedReturnType : ReturnType → Bool
  | .Block => true
  | .Topology => true
  | .other _ => false

/-- Modelled from the spec: the body of `BlockRegistry::doesBlockExist` is not among the
sources. "Checks if block is registered at a given path": a pure lookup; the path is
given as to the constructor and resolved under `/blocks`, as in the scenario of
section 8 (registered at `/blocks/math/adder`, made as `/math/adder`). -/
def doesBlockExist (path : String) (reg : Registry) : Bool :=
  (reg.find (canonicalPath path)).isSome

/-- The validation of a registration, in the order in which the spec lists the
failures: malformed path, duplicate path, disallowed return type. Which paths are
well formed is left to `wellFormed`; the header asks for a leading slash. -/
def validate (wellFormed : String → Bool) (path : String) (factory : Callable)
    (reg : Registry) : Option RegistrationError :=
  if !wellFormed path then some (.malformedPath path)
  else if doesBlockExist path reg then some (.duplicatePath path)
  else if !acceptedReturnType factory.returnType then some (.disallowedReturnType path)
  else none

set_option linter.dupNamespace false

/-- Modelled from the spec: the body of the constructor
`BlockRegistry::BlockRegistry(path, factory)` is not among the sources. It registers
`factory` under `"/blocks" + path`; a validation failure is logged and the registration
is dropped; the constructor returns normally either way. -/
def BlockRegistry (wellFormed : String → Bool) (path : String) (factory : Callable)
    (reg : Registry) : Except Failure Unit × Registry :=
  match validate wellFormed path factory reg with
  | some e => (.ok (), ⟨reg.table, reg.logged ++ [e]⟩)
  | none => (.ok (), ⟨reg.table ++ [(canonicalPath path, factory)], reg.logged⟩)

/-- A sequence of registrations, as static initialisation runs them one after another. -/
def registerAll (wellFormed : String → Bool) :
    List (String × Callable) → Registry → Registry
  | [], reg => reg
  | (path, factory) :: rest, reg =>
    registerAll wellFormed rest (BlockRegistry wellFormed path factory reg).2

/-- The state `make` runs in: the registry, the state of the collaborators that a
factory touches, and the factories invoked so far with their arguments. -/
structure MakeState (σ : Type) where
  registry : Registry
  world : σ
  invoked : List (Callable × List Any)

/-- Modelled from the spec: the body of `BlockRegistry::make` is not among the sources.
It looks up the factory at the given path (resolved under `/blocks`, as for
`doesBlockExist`); if absent it fails with `UnknownFactoryPathError`; otherwise it
invokes the factory with the supplied arguments and returns the new element as a
`Proxy`. -/
def make (invoke : Callable → List Any → σ → Except Failure Proxy × σ) (path : String)
    (args : List Any) (st : MakeState σ) : Except Failure Proxy × MakeState σ :=
  match st.registry.find (canonicalPath path) with
  | none => (.error (.thrown .UnknownFactoryPathError), st)
  | some factory =>
    ((invoke factory args st.world).1,
      ⟨st.registry, (invoke factory args st.world).2, st.invoked ++ [(factory, args)]⟩)

/-- The well-formedness the header asks for: "the factory path begining with a slash". -/
def beginsWithSlash (path : String) : Bool :=
  match path.data with
  | c :: _ => c == '/'
  | [] => false

end BlockRegistry

end Pothos

/-! ## `AffinityPanel.cpp`

The widgets (`QLineEdit`, `QTabWidget`), the settings store (`QSettings`) and the zone
editor are modelled by the part of their state that the panel reads and writes. The
delivery of Qt signals is not modelled. -/

namespace PothosGui

/-- A `QVariant` as the panel stores it: a `QString` or a `QStringList`. -/
inductive Variant where
  | string (s : String)
  | stringList (l : List String)
deriving DecidableEq, Repr

/-- The store behind `getSettings()`: keys with their values, one entry per key. -/
abbrev Settings := List (String × Variant)

/-- Models `QSettings::value(key)`: the stored value, or an invalid variant. -/
def Settings.value (st : Settings) (key : String) : Option Variant :=
  (st.find? (fun e => e.1 == key)).map (fun e => e.2)

/-- Models `QSettings::setValue(key, value)`: the value replaces what the key held. -/
def Settings.setValue (st : Settings) (key : String) (v : Variant) : Settings :=
  st.filter (fun e => !(e.1 == key)) ++ [(key, v)]

/-- Models `QVariant::toString()`: the string itself; for a list of exactly one string that
string; the empty string otherwise, also for an invalid variant. -/
def variantToString : Option Variant → String
  | some (.string s) => s
  | some (.stringList [s]) => s
  | _ => ""

/-- An `AffinityZoneEditor`, reduced to its current configuration as
`getCurrentConfig()->stringify` prints it. -/
structure AffinityZoneEditor where
  config : String
deriving DecidableEq, Repr

/-- What the `try` block of `createZoneFromName` does with a saved, non-empty text:
the text parses to an object that the editor loads, a `Poco::JSON::JSONException` is
thrown (and caught), or an exception of another class is thrown (and not caught). -/
inductive LoadResult where
  | loaded (config : String)
  | jsonException
  | otherException (what : String)
deriving DecidableEq, Repr

/-- The collaborators of the panel: the configuration of a new editor and the JSON
parser together with `AffinityZoneEditor::loadFromConfig`. -/
structure Collaborators where
  newConfig : String
  load : String → LoadResult

/-- One tab of `_editorsTabs`: its label and its page. -/
structure Tab where
  text : String
  editor : AffinityZoneEditor
deriving DecidableEq, Repr

/-- An entry of the logger `PothosGui.AffinityPanel`. -/
inductive LogEntry where
  | failedToLoadEditor (zoneName : String)
deriving DecidableEq, Repr

/-- The state of the panel: the text of `_zoneEntry`, the tabs of `_editorsTabs` in
order with the current index (`-1` without tabs), the settings, the tool tips shown
and the errors logged. -/
structure AffinityPanel where
  zoneEntry : String
  tabs : List Tab
  currentIndex : Int
  settings : Settings
  toolTips : List String
  logged : List LogEntry
deriving DecidableEq, Repr

/-- Models `_editorsTabs->count()`. -/
def AffinityPanel.count (p : AffinityPanel) : Nat := p.tabs.length

/-- Models `_editorsTabs->tabText(i)`: the label of tab `i`, empty when `i` is out of range. -/
def AffinityPanel.tabText (p : AffinityPanel) (i : Int) : String :=
  if i < 0 then "" else
    match p.tabs.get? i.toNat with
    | some t => t.text
    | none => ""

/-- Models `_editorsTabs->addTab(editor, label)`: the tab is appended after the existing
ones; the first tab of an empty widget becomes the current one. -/
def AffinityPanel.addTab (p : AffinityPanel) (editor : AffinityZoneEditor) (label : String) :
    AffinityPanel :=
  ⟨p.zoneEntry, p.tabs ++ [⟨label, editor⟩],
    if p.tabs.isEmpty then 0 else p.currentIndex, p.settings, p.toolTips, p.logged⟩

/-- Models `_editorsTabs->setCurrentWidget(editor)` for the page at index `i`. -/
def AffinityPanel.setCurrentIndex (p : AffinityPanel) (i : Nat) : AffinityPanel :=
  ⟨p.zoneEntry, p.tabs, if i < p.tabs.length then (i : Int) else p.currentIndex,
    p.settings, p.toolTips, p.logged⟩

/-- The tabs after the editor of the page at index `i` has loaded `config`. -/
def loadAt (config : String) : Nat → List Tab → List Tab
  | _, [] => []
  | 0, t :: rest => ⟨t.text, ⟨config⟩⟩ :: rest
  | i + 1, t :: rest => t :: loadAt config i rest

/-- Models `editor->loadFromConfig(dataObj)` on the page at index `i`. -/
def AffinityPanel.loadFromConfig (p : AffinityPanel) (i : Nat) (config : String) :
    AffinityPanel :=
  ⟨p.zoneEntry, loadAt config i p.tabs, p.currentIndex, p.settings, p.toolTips, p.logged⟩

/-- Embeds `AffinityPanel::handleErrorMessage`: the message is shown as a red tool tip. -/
def AffinityPanel.handleErrorMessage (p : AffinityPanel) (errMsg : String) : AffinityPanel :=
  ⟨p.zoneEntry, p.tabs, p.currentIndex, p.settings,
    p.toolTips ++ ["<font color=\"red\">" ++ errMsg ++ "</font>"], p.logged⟩

/-- Embeds `AffinityPanel::createZoneFromName`. The new editor is a fresh object, so the
function reports it by the index of the tab it was added at. A saved configuration of
the zone is restored; a `JSONException` is logged, any other exception leaves the
function after the tab has been added. -/
def AffinityPanel.createZoneFromName (p : AffinityPanel) (C : Collaborators)
    (zoneName : String) :
    Except Pothos.Failure Nat × AffinityPanel :=
  let index := p.tabs.length
  let p1 := p.addTab ⟨C.newConfig⟩ zoneName
  let p2 :=
    if zoneName = variantToString (p1.settings.value "AffinityZones/currentZone")
    then p1.setCurrentIndex index else p1
  let json := variantToString (p2.settings.value ("AffinityZones/zones/" ++ zoneName))
  if json.isEmpty then (.ok index, p2)
  else
    match C.load json with
    | .loaded config => (.ok index, p2.loadFromConfig index config)
    | .jsonException =>
      (.ok index, ⟨p2.zoneEntry, p2.tabs, p2.currentIndex, p2.settings, p2.toolTips,
        p2.logged ++ [.failedToLoadEditor zoneName]⟩)
    | .otherException what => (.error (.thrown (.other what)), p2)

/-- The second loop of `saveAffinityZoneEditorsState`: the configuration of every tab
is stored under `"AffinityZones/zones/" + tabText(i)`, in tab order. -/
def saveZones : List Tab → Settings → Settings
  | [], st => st
  | t :: rest, st =>
    saveZones rest (st.setValue ("AffinityZones/zones/" ++ t.text) (.string t.editor.config))

/-- Embeds `AffinityPanel::saveAffinityZoneEditorsState`. -/
def AffinityPanel.saveAffinityZoneEditorsState (p : AffinityPanel) : AffinityPanel :=
  let names := p.tabs.map (fun t => t.text)
  let st1 := p.settings.setValue "AffinityZones/zoneNames" (.stringList names)
  let st2 := st1.setValue "AffinityZones/currentZone" (.string (p.tabText p.currentIndex))
  ⟨p.zoneEntry, p.tabs, p.currentIndex, saveZones p.tabs st2, p.toolTips, p.logged⟩

/-- The loop of `handleCreateZone`: whether some tab, from index `0` upwards, carries
the text `zoneName`. -/
def tabTextExists (zoneName : String) : List Tab → Bool
  | [] => false
  | t :: rest => if t.text = zoneName then true else tabTextExists zoneName rest

/-- Embeds `AffinityPanel::handleCreateZone`. -/
def AffinityPanel.handleCreateZone (p : AffinityPanel) (C : Collaborators) :
    Except Pothos.Failure Unit × AffinityPanel :=
  let zoneName := p.zoneEntry
  let p1 : AffinityPanel :=
    ⟨"", p.tabs, p.currentIndex, p.settings, p.toolTips, p.logged⟩
  if zoneName.isEmpty then (.ok (), p1)
  else if tabTextExists zoneName p1.tabs then
    (.ok (), p1.handleErrorMessage (zoneName ++ " already exists!"))
  else
    match p1.createZoneFromName C zoneName with
    | (.error f, p2) => (.error f, p2)
    | (.ok editor, p2) => (.ok (), (p2.setCurrentIndex editor).saveAffinityZoneEditorsState)

/-- Collaborators used for concrete runs: a new editor prints `"\x7b\x7d"`; a saved
text loads as it is, except that `"["` is no JSON and `"[]"` is no JSON object. -/
def sampleCollaborators : Collaborators where
  newConfig := "\x7b\x7d"
  load := fun json =>
    if json = "[" then .jsonException
    else if json = "[]" then .otherException "Bad Cast Exception"
    else .loaded json

/-- The zone names of a tab list are pairwise distinct and none is empty. -/
def zoneNamesValid (tabs : List Tab) : Prop :=
  (tabs.map (fun t => t.text)).Nodup ∧ "" ∉ tabs.map (fun t => t.text)

instance (tabs : List Tab) : Decidable (zoneNamesValid tabs) := by
  unfold zoneNamesValid
  infer_instance

/-- A panel with the tabs `default` and `fast`, and `fast` typed into the entry. -/
def samplePanel : AffinityPanel :=
  ⟨"fast", [⟨"default", ⟨"\x7b\x7d"⟩⟩, ⟨"fast", ⟨"\x7b\x7d"⟩⟩], 0, [], [], []⟩

/-- The same panel with the new name `slow` typed into the entry, and a saved
configuration for that zone in the settings. -/
def samplePanelNew : AffinityPanel :=
  ⟨"slow", [⟨"default", ⟨"\x7b\x7d"⟩⟩, ⟨"fast", ⟨"\x7b\x7d"⟩⟩], 0,
    [("AffinityZones/zones/slow", .string "cfg")], [], []⟩

end PothosGui

namespace Pothos

/-! ## Theorems about `ProxyImpl.hpp` -/

/-- The `proxyArgs` initialiser of a receiver of environment `E` computes the
conversion that `wrapSpec` specifies, and appends the calls it makes to the trace. -/
theorem proxyArgs_eq_wrapSpec (W : World σ) (E : EnvId) (args : List Any) :
    ∀ s : Sys σ, proxyArgs W (some E) args s =
      ((wrapSpec W E args s.world).1,
        ⟨(wrapSpec W E args s.world).2.1, s.trace ++ (wrapSpec W E args s.world).2.2⟩) := by
  induction args with
  | nil => intro s; simp [proxyArgs, wrapSpec]
  | cons a rest ih =>
    intro s
    cases a with
    | proxy p =>
      simp only [proxyArgs, Detail.makeProxy, wrapSpec, ih s]
      rcases hr : wrapSpec W E rest s.world with ⟨r, w1, calls⟩
      cases r <;> simp
    | value v =>
      rcases hm : W.makeProxy E v s.world with ⟨m, w1⟩
      cases m with
      | error f => simp [proxyArgs, Detail.makeProxy, envMakeProxy, wrapSpec, hm]
      | ok q =>
        simp only [proxyArgs, Detail.makeProxy, envMakeProxy, wrapSpec, hm, ih ⟨w1, _⟩]
        rcases hr : wrapSpec W E rest w1 with ⟨r, w2, calls⟩
        cases r <;> simp

/-- The call of a receiver with environment `E` and handle `h`, in terms of the
specified conversion: a failed conversion is the outcome, a successful one is followed
by the one call of the handle, in the state the conversion left. -/
theorem call_eq_wrapSpec (W : World σ) (ndebug : Bool) (E : EnvId) (h : HandleId)
    (n : String) (args : List Any) (s : Sys σ) :
    (Proxy.mk (some E) (some h)).call W ndebug n args s =
      (match wrapSpec W E args s.world with
       | (.ok qs, w, calls) =>
         ((W.handleCall h n qs w).1,
           ⟨(W.handleCall h n qs w).2, s.trace ++ calls ++ [.handleCall h n qs]⟩)
       | (.error f, w, calls) => (.error f, ⟨w, s.trace ++ calls⟩)) := by
  simp only [Proxy.call, Proxy.getEnvironment, Proxy.getHandle, proxyArgs_eq_wrapSpec]
  rcases hr : wrapSpec W E args s.world with ⟨r, w, calls⟩
  cases r <;> simp [handleCall]

/-- A successful conversion, position by position: the proxies before position `i`
are the conversion of the arguments before `i`; at `i` a `Proxy` argument is found
unchanged, and any other argument has been replaced by what `makeProxy` of `E`
returned for it in the state left by the conversion of the arguments before `i`. -/
theorem wrapSpec_index (W : World σ) (E : EnvId) (args : List Any) :
    ∀ (w : σ) (qs : List Proxy) (w1 : σ) (calls : List Event),
      wrapSpec W E args w = (.ok qs, w1, calls) →
      ∀ (i : Nat) (a : Any), args.get? i = some a →
        ∃ w0, wrapSpec W E (args.take i) w
            = (.ok (qs.take i), w0, wrapEvents E (args.take i))
          ∧ (match a with
              | .proxy p => qs.get? i = some p
              | .value v => ∃ q w2, W.makeProxy E v w0 = (.ok q, w2) ∧ qs.get? i = some q) := by
  induction args with
  | nil => intro w qs w1 calls _ i a ha; simp at ha
  | cons a0 rest ih =>
    intro w qs w1 calls hw i a ha
    cases a0 with
    | proxy p =>
      simp only [wrapSpec] at hw
      rcases hr : wrapSpec W E rest w with ⟨r, w2, c2⟩
      rw [hr] at hw
      cases r with
      | error f => simp at hw
      | ok qs1 =>
        simp only [Prod.mk.injEq, Except.ok.injEq] at hw
        obtain ⟨hq, hw1, hc⟩ := hw
        subst hq hw1 hc
        cases i with
        | zero =>
          simp only [List.get?_cons_zero, Option.some.injEq] at ha
          subst ha
          exact ⟨w, by simp [wrapSpec, wrapEvents], by simp⟩
        | succ j =>
          simp only [List.get?_cons_succ] at ha
          obtain ⟨w0, h1, h2⟩ := ih w qs1 w2 c2 hr j a ha
          refine ⟨w0, by simp [wrapSpec, wrapEvents, h1], ?_⟩
          cases a with
          | proxy p1 => simpa using h2
          | value v1 => simpa using h2
    | value v =>
      simp only [wrapSpec] at hw
      rcases hm : W.makeProxy E v w with ⟨m, w2⟩
      rw [hm] at hw
      cases m with
      | error f => simp at hw
      | ok q =>
        simp only at hw
        rcases hr : wrapSpec W E rest w2 with ⟨r, w3, c3⟩
        rw [hr] at hw
        cases r with
        | error f => simp at hw
        | ok qs1 =>
          simp only [Prod.mk.injEq, Except.ok.injEq] at hw
          obtain ⟨hq, hw1, hc⟩ := hw
          subst hq hw1 hc
          cases i with
          | zero =>
            simp only [List.get?_cons_zero, Option.some.injEq] at ha
            subst ha
            exact ⟨w, by simp [wrapSpec, wrapEvents], q, w2, hm, by simp⟩
          | succ j =>
            simp only [List.get?_cons_succ] at ha
            obtain ⟨w0, h1, h2⟩ := ih w2 qs1 w3 c3 hr j a ha
            refine ⟨w0, by simp [wrapSpec, wrapEvents, hm, h1], ?_⟩
            cases a with
            | proxy p1 => simpa using h2
            | value v1 => simpa using h2

/-- A successful conversion yields one proxy per argument and makes exactly the calls
of `wrapEvents`: one `makeProxy` for each argument that is not a `Proxy`. -/
theorem wrapSpec_ok (W : World σ) (E : EnvId) (args : List Any) :
    ∀ (w : σ) (qs : List Proxy) (w1 : σ) (calls : List Event),
      wrapSpec W E args w = (.ok qs, w1, calls) →
      List.Forall₂
        (fun a q => match a with
          | .proxy a1 => q = a1
          | .value v => ∃ w0 w2, W.makeProxy E v w0 = (.ok q, w2)) args qs
      ∧ calls = wrapEvents E args := by
  induction args with
  | nil =>
    intro w qs w1 calls hw
    simp only [wrapSpec, Prod.mk.injEq, Except.ok.injEq] at hw
    obtain ⟨hq, _, hc⟩ := hw
    subst hq hc
    exact ⟨List.Forall₂.nil, rfl⟩
  | cons a0 rest ih =>
    intro w qs w1 calls hw
    cases a0 with
    | proxy p =>
      simp only [wrapSpec] at hw
      rcases hr : wrapSpec W E rest w with ⟨r, w2, c2⟩
      rw [hr] at hw
      cases r with
      | error f => simp at hw
      | ok qs1 =>
        simp only [Prod.mk.injEq, Except.ok.injEq] at hw
        obtain ⟨hq, hw1, hc⟩ := hw
        subst hq hw1 hc
        obtain ⟨h1, h2⟩ := ih w qs1 w2 c2 hr
        exact ⟨List.Forall₂.cons rfl h1, by simpa [wrapEvents] using h2⟩
    | value v =>
      simp only [wrapSpec] at hw
      rcases hm : W.makeProxy E v w with ⟨m, w2⟩
      rw [hm] at hw
      cases m with
      | error f => simp at hw
      | ok q =>
        simp only at hw
        rcases hr : wrapSpec W E rest w2 with ⟨r, w3, c3⟩
        rw [hr] at hw
        cases r with
        | error f => simp at hw
        | ok qs1 =>
          simp only [Prod.mk.injEq, Except.ok.injEq] at hw
          obtain ⟨hq, hw1, hc⟩ := hw
          subst hq hw1 hc
          obtain ⟨h1, h2⟩ := ih w2 qs1 w3 c3 hr
          exact ⟨List.Forall₂.cons ⟨w, w2, hm⟩ h1, by simpa [wrapEvents] using h2⟩

/-- A failed conversion stopped at an argument that is not a `Proxy`: the arguments
before it were converted, `makeProxy` failed for it in the state they left, and the
arguments after it were not looked at. -/
theorem wrapSpec_error (W : World σ) (E : EnvId) (args : List Any) :
    ∀ (w : σ) (f : Failure) (w1 : σ) (calls : List Event),
      wrapSpec W E args w = (.error f, w1, calls) →
      ∃ (before : List Any) (v : Value) (after : List Any) (qs : List Proxy) (w0 : σ),
        args = before ++ .value v :: after
        ∧ wrapSpec W E before w = (.ok qs, w0, wrapEvents E before)
        ∧ W.makeProxy E v w0 = (.error f, w1)
        ∧ calls = wrapEvents E before ++ [.makeProxy E v] := by
  induction args with
  | nil => intro w f w1 calls hw; simp [wrapSpec] at hw
  | cons a0 rest ih =>
    intro w f w1 calls hw
    cases a0 with
    | proxy p =>
      simp only [wrapSpec] at hw
      rcases hr : wrapSpec W E rest w with ⟨r, w2, c2⟩
      rw [hr] at hw
      cases r with
      | ok qs1 => simp at hw
      | error g =>
        simp only [Prod.mk.injEq, Except.error.injEq] at hw
        obtain ⟨hg, hw1, hc⟩ := hw
        subst hg hw1 hc
        obtain ⟨before, v, after, qs, w0, h1, h2, h3, h4⟩ := ih w g w2 c2 hr
        refine ⟨.proxy p :: before, v, after, p :: qs, w0, by simp [h1], ?_, h3, ?_⟩
        · simp [wrapSpec, wrapEvents, h2]
        · simpa [wrapEvents] using h4
    | value v0 =>
      simp only [wrapSpec] at hw
      rcases hm : W.makeProxy E v0 w with ⟨m, w2⟩
      rw [hm] at hw
      cases m with
      | error g =>
        simp only [Prod.mk.injEq, Except.error.injEq] at hw
        obtain ⟨hg, hw1, hc⟩ := hw
        subst hg hw1 hc
        exact ⟨[], v0, rest, [], w, rfl, rfl, hm, rfl⟩
      | ok q =>
        simp only at hw
        rcases hr : wrapSpec W E rest w2 with ⟨r, w3, c3⟩
        rw [hr] at hw
        cases r with
        | ok qs1 => simp at hw
        | error g =>
          simp only [Prod.mk.injEq, Except.error.injEq] at hw
          obtain ⟨hg, hw1, hc⟩ := hw
          subst hg hw1 hc
          obtain ⟨before, v, after, qs, w0, h1, h2, h3, h4⟩ := ih w2 g w3 c3 hr
          refine ⟨.value v0 :: before, v, after, q :: qs, w0, by simp [h1], ?_, h3, ?_⟩
          · simp [wrapSpec, wrapEvents, hm, h2]
          · simpa [wrapEvents] using h4

/-- With no environment, the `proxyArgs` initialiser reaches no collaborator: it
either passes all-`Proxy` arguments through or stops at the null environment. -/
theorem proxyArgs_none (W : World σ) (args : List Any) (s : Sys σ) :
    (∃ qs, proxyArgs W none args s = (.ok qs, s))
    ∨ proxyArgs W none args s = (.error .nullDeref, s) := by
  induction args with
  | nil => exact Or.inl ⟨[], rfl⟩
  | cons a rest ih =>
    cases a with
    | value v => right; simp [proxyArgs, Detail.makeProxy, envMakeProxy]
    | proxy a1 =>
      rcases ih with ⟨qs, h⟩ | h
      · left; exact ⟨a1 :: qs, by simp [proxyArgs, Detail.makeProxy, h]⟩
      · right; simp [proxyArgs, Detail.makeProxy, h]

/-- C1: for every receiver `p`, name `n` and return type `R`, `p.get<R>(n)` is
`p.call<R>("get:" + n)`: same outcome (value or failure), same collaborator state and
same trace; on a receiver with handle `h` this is the single dispatch of `"get:" + n`
with zero arguments to `h`, followed by `Detail::convertProxy<R>`. -/
theorem Proxy.get_eq_callTyped (W : World σ) (ndebug : Bool) (R : Target) (p : Proxy)
    (n : String) (s : Sys σ) :
    p.get W ndebug R n s = p.callTyped W ndebug R ("get:" ++ n) [] s
    ∧ (∀ (E : Option EnvId) (h : HandleId),
        (Proxy.mk E (some h)).get W ndebug R n s =
          match handleCall W h ("get:" ++ n) [] s with
          | (.error f, s1) => (.error f, s1)
          | (.ok ret, s1) => Detail.convertProxy W R ret s1) := by
  refine ⟨rfl, ?_⟩
  intro E h
  simp only [Proxy.get, Proxy.callTyped, Proxy.call, proxyArgs, Proxy.getHandle]



/-- C2, as stated, fails for a receiver without a handle and when `makeProxy` fails:
the default-constructed proxy called with one `Proxy` argument stops at the failed
`assert(handle)` with nothing dispatched, and a receiver whose environment has been
torn down ends with the error of `makeProxy`, its handle never called. -/
theorem Proxy.call_without_dispatch :
    Proxy.null.call sampleWorld false "f" [Any.proxy ⟨some 0, some 5⟩] sampleStart
      = (.error .assertFailed, ⟨10, []⟩)
    ∧ (Proxy.mk (some 0) (some 3)).call expiredWorld false "f" [Any.value ⟨1, 42⟩]
        sampleStart
      = (.error (.thrown .EnvironmentExpiredError), ⟨10, [.makeProxy 0 ⟨1, 42⟩]⟩) := by
  constructor <;> rfl

/-- C2, amended: on a receiver with environment `E` and handle `h`, the untyped
`call(n, a_1..a_k)` converts the arguments in their order as `wrapSpec` specifies and
then dispatches `h` exactly once, with the name unchanged, with the converted proxies
and in the state the conversion left; `call` returns what the handle returned. The
conversion yields `k` proxies and calls `makeProxy` for the arguments that are not a
`Proxy` only; the `i`-th proxy is `a_i` itself when `a_i` is a `Proxy`, and otherwise
the result of `makeProxy(a_i)` of `E` in the state left by converting `a_1..a_(i-1)`.
When a `makeProxy` fails, `call` ends with that failure, the arguments after it are
not converted and the handle is not dispatched. -/
theorem Proxy.call_wraps_then_dispatches (W : World σ) (ndebug : Bool) (E : EnvId)
    (h : HandleId) (n : String) (args : List Any) (s : Sys σ) :
    (Proxy.mk (some E) (some h)).call W ndebug n args s =
        (match wrapSpec W E args s.world with
         | (.ok qs, w, calls) =>
           ((W.handleCall h n qs w).1,
             ⟨(W.handleCall h n qs w).2, s.trace ++ calls ++ [.handleCall h n qs]⟩)
         | (.error f, w, calls) => (.error f, ⟨w, s.trace ++ calls⟩))
    ∧ (∀ (qs : List Proxy) (w : σ) (calls : List Event),
        wrapSpec W E args s.world = (.ok qs, w, calls) →
          qs.length = args.length
          ∧ calls = wrapEvents E args
          ∧ ∀ (i : Nat) (a : Any), args.get? i = some a →
              ∃ w0, wrapSpec W E (args.take i) s.world
                  = (.ok (qs.take i), w0, wrapEvents E (args.take i))
                ∧ (match a with
                    | .proxy p => qs.get? i = some p
                    | .value v =>
                      ∃ q w2, W.makeProxy E v w0 = (.ok q, w2) ∧ qs.get? i = some q))
    ∧ (∀ (f : Failure) (w : σ) (calls : List Event),
        wrapSpec W E args s.world = (.error f, w, calls) →
          ∃ (before : List Any) (v : Value) (after : List Any) (qs : List Proxy) (w0 : σ),
            args = before ++ .value v :: after
            ∧ wrapSpec W E before s.world = (.ok qs, w0, wrapEvents E before)
            ∧ W.makeProxy E v w0 = (.error f, w)
            ∧ calls = wrapEvents E before ++ [.makeProxy E v]) := by
  refine ⟨call_eq_wrapSpec W ndebug E h n args s, ?_, ?_⟩
  · intro qs w calls hw
    obtain ⟨hall, hcalls⟩ := wrapSpec_ok W E args s.world qs w calls hw
    exact ⟨hall.length_eq.symm, hcalls, wrapSpec_index W E args s.world qs w calls hw⟩
  · intro f w calls hw
    exact wrapSpec_error W E args s.world f w calls hw

/-- C2 amended, at a concrete input: a value and a proxy handed to `"f"` in
`sampleWorld`. The value is stored under the fresh handle `10`, the handle `3` is
called once with both proxies in state `11`, and its answer is returned. -/
theorem Proxy.call_wraps_then_dispatches_witness :
    (Proxy.mk (some 0) (some 3)).call sampleWorld false "f"
        [Any.value ⟨1, 42⟩, Any.proxy ⟨some 0, some 5⟩] sampleStart
      = (.ok ⟨some 0, some 11⟩,
          ⟨12, [.makeProxy 0 ⟨1, 42⟩,
                .handleCall 3 "f" [⟨some 0, some 10⟩, ⟨some 0, some 5⟩]]⟩) :=
  (Proxy.call_wraps_then_dispatches sampleWorld false 0 3 "f"
    [Any.value ⟨1, 42⟩, Any.proxy ⟨some 0, some 5⟩] sampleStart).1.trans rfl

/-- C3, as stated, fails: a caller-supplied `Proxy` of environment `1` handed to a
receiver of environment `0` reaches the receiver's handle unchanged, still bound to
environment `1`, and no `makeProxy` or `convertProxyToObject` was called. -/
theorem Proxy.call_foreign_proxy_passes_through :
    ((Proxy.mk (some 0) (some 3)).call sampleWorld false "f"
        [Any.proxy ⟨some 1, some 4⟩] sampleStart).2.trace
      = [Event.handleCall 3 "f" [⟨some 1, some 4⟩]]
    ∧ (Proxy.mk (some 1) (some 4)).environment ≠ (Proxy.mk (some 0) (some 3)).environment := by
  constructor
  · rfl
  · decide

/-- C3, amended: on a receiver with environment `E` and handle `h`, a `call` whose
argument conversion does not fail hands the handle exactly the proxies of `wrapSpec`,
one per argument and in order. The proxy for an argument that is not a `Proxy` is the
one that `makeProxy` of `E` returned for it, so it is bound to `E` whenever `makeProxy`
of `E` returns proxies bound to `E`. The proxy for a `Proxy` argument is that argument
itself, whatever its environment: the only calls made before the dispatch are the
`makeProxy` calls for the other arguments, and none is a `convertProxyToObject`. -/
theorem Proxy.call_argument_environments (W : World σ) (ndebug : Bool) (E : EnvId)
    (h : HandleId) (n : String) (args : List Any) (s : Sys σ) :
    ∀ (qs : List Proxy) (w : σ) (calls : List Event),
      wrapSpec W E args s.world = (.ok qs, w, calls) →
        (Proxy.mk (some E) (some h)).call W ndebug n args s
            = handleCall W h n qs ⟨w, s.trace ++ calls⟩
        ∧ List.Forall₂
            (fun a q => match a with
              | .proxy a1 => q = a1
              | .value v => ∃ w0 w2, W.makeProxy E v w0 = (.ok q, w2)) args qs
        ∧ (∀ e ∈ calls, ∃ v, Any.value v ∈ args ∧ e = .makeProxy E v)
        ∧ ((∀ v w0 q w2, W.makeProxy E v w0 = (.ok q, w2) → q.environment = some E) →
            List.Forall₂
              (fun a q => match a with
                | .proxy a1 => q = a1
                | .value _ => q.environment = some E) args qs) := by
  intro qs w calls hw
  obtain ⟨hall, hcalls⟩ := wrapSpec_ok W E args s.world qs w calls hw
  refine ⟨?_, hall, ?_, ?_⟩
  · rw [call_eq_wrapSpec, hw]
    simp [handleCall]
  · subst hcalls
    intro e he
    have hmem : ∀ (l : List Any) (e : Event), e ∈ wrapEvents E l →
        ∃ v, Any.value v ∈ l ∧ e = .makeProxy E v := by
      intro l
      induction l with
      | nil => intro e he; simp [wrapEvents] at he
      | cons a rest ih =>
        intro e he
        cases a with
        | proxy p =>
          obtain ⟨v, hv, hev⟩ := ih e (by simpa [wrapEvents] using he)
          exact ⟨v, List.mem_cons_of_mem _ hv, hev⟩
        | value v0 =>
          simp only [wrapEvents, List.mem_cons] at he
          rcases he with he | he
          · exact ⟨v0, List.mem_cons_self _ _, he⟩
          · obtain ⟨v, hv, hev⟩ := ih e he
            exact ⟨v, List.mem_cons_of_mem _ hv, hev⟩
    exact hmem args e he
  · intro henv
    refine hall.imp ?_
    intro a q haq
    cases a with
    | proxy a1 => exact haq
    | value v =>
      obtain ⟨w0, w2, hq⟩ := haq
      exact henv v w0 q w2 hq

/-- C3 amended, at a concrete input: a value, a proxy of the receiver's environment
and a proxy of another environment handed to `"f"` in `sampleWorld`. The handle is
called with the fresh proxy of environment `0` and with the two proxies as given. -/
theorem Proxy.call_argument_environments_witness :
    wrapSpec sampleWorld 0
        [Any.value ⟨1, 42⟩, Any.proxy ⟨some 0, some 5⟩, Any.proxy ⟨some 1, some 4⟩] 10
      = (.ok [⟨some 0, some 10⟩, ⟨some 0, some 5⟩, ⟨some 1, some 4⟩], 11,
          [.makeProxy 0 ⟨1, 42⟩])
    ∧ (Proxy.mk (some 0) (some 3)).call sampleWorld false "f"
        [Any.value ⟨1, 42⟩, Any.proxy ⟨some 0, some 5⟩, Any.proxy ⟨some 1, some 4⟩]
        sampleStart
      = (.ok ⟨some 0, some 11⟩,
          ⟨12, [.makeProxy 0 ⟨1, 42⟩,
                .handleCall 3 "f"
                  [⟨some 0, some 10⟩, ⟨some 0, some 5⟩, ⟨some 1, some 4⟩]]⟩) :=
  ⟨rfl,
    (Proxy.call_argument_environments sampleWorld false 0 3 "f"
      [Any.value ⟨1, 42⟩, Any.proxy ⟨some 0, some 5⟩, Any.proxy ⟨some 1, some 4⟩]
      sampleStart _ _ _ rfl).1.trans rfl⟩

/-- C4: the typed `p.call<R>(n, args)` first performs the untyped `p.call(n, args)`; a
failure of the untyped call is the failure of the typed call; on a result `r` it
returns `r.convert<R>()` when `R` is not `Proxy`, and `r` itself when `R` is `Proxy`,
leaving the collaborator state and the trace exactly as the untyped call left them. -/
theorem Proxy.callTyped_spec (W : World σ) (ndebug : Bool) (p : Proxy) (n : String)
    (args : List Any) (s : Sys σ) :
    (∀ t : TypeId, p.callTyped W ndebug (.other t) n args s =
        match p.call W ndebug n args s with
        | (.error f, s1) => (.error f, s1)
        | (.ok r, s1) => r.convert W (.other t) s1)
    ∧ p.callTyped W ndebug .proxy n args s =
        match p.call W ndebug n args s with
        | (.error f, s1) => (.error f, s1)
        | (.ok r, s1) => (.ok (.proxy r), s1) := by
  constructor
  · intro t
    simp only [Proxy.callTyped, Detail.convertProxy]
  · simp only [Proxy.callTyped, Detail.convertProxy]

/-- C5, as stated, fails: `convert<Proxy>()` on a proxy of environment `0` is no
passthrough. It asks the environment for `convertProxyToObject` and converts the
`Object`; in `sampleWorld`, where an `Object` has no conversion to `Proxy`, it ends in
a `ConversionError` instead of returning the proxy. -/
theorem Proxy.convert_to_proxy_converts :
    (Proxy.mk (some 0) (some 3)).convert sampleWorld .proxy sampleStart
      = (.error (.thrown .ConversionError),
          ⟨10, [.convertProxyToObject 0 ⟨some 0, some 3⟩, .objectConvert ⟨0, 3⟩ .proxy]⟩)
    ∧ (Proxy.mk (some 0) (some 3)).convert sampleWorld .proxy sampleStart
      ≠ (.ok (.proxy ⟨some 0, some 3⟩), sampleStart) := by
  have h : (Proxy.mk (some 0) (some 3)).convert sampleWorld .proxy sampleStart
      = (.error (.thrown .ConversionError),
          ⟨10, [.convertProxyToObject 0 ⟨some 0, some 3⟩, .objectConvert ⟨0, 3⟩ .proxy]⟩) := rfl
  refine ⟨h, ?_⟩
  rw [h]
  intro hc
  cases hc

/-- C5, amended: for every proxy `p` of an environment `E` and every target type `T`,
the `Proxy` type included, `p.convert<T>()` first asks `E` for
`convertProxyToObject(p)` and then converts that `Object` to `T` (a failure of the
first step ends the conversion); `operator T()` is `convert<T>()`; the identity
passthrough for the `Proxy` type is made by `Detail::convertProxy<Proxy>`, which
returns `p` unchanged without touching a collaborator. -/
theorem Proxy.convert_spec (W : World σ) (T : Target) (E : EnvId) (h : Option HandleId)
    (p : Proxy) (s : Sys σ) :
    (Proxy.mk (some E) h).convert W T s =
        (match W.convertProxyToObject E ⟨some E, h⟩ s.world with
         | (.error f, w) => (.error f, ⟨w, s.trace ++ [.convertProxyToObject E ⟨some E, h⟩]⟩)
         | (.ok obj, w) =>
           ((W.objectConvert obj T w).1,
             ⟨(W.objectConvert obj T w).2,
               s.trace ++ [.convertProxyToObject E ⟨some E, h⟩, .objectConvert obj T]⟩))
    ∧ p.operatorValueType W T s = p.convert W T s
    ∧ Detail.convertProxy W .proxy p s = (.ok (.proxy p), s) := by
  refine ⟨?_, rfl, rfl⟩
  rcases hc : W.convertProxyToObject E ⟨some E, h⟩ s.world with ⟨r, w⟩
  cases r with
  | error f => simp [Proxy.convert, Proxy.getEnvironment, envConvertProxyToObject, hc]
  | ok obj =>
    simp [Proxy.convert, Proxy.getEnvironment, envConvertProxyToObject, hc, objConvert]

/-- C6, as stated, fails: `call` with no arguments on the default-constructed proxy
stops at the failed `assert(handle)`; it does not fail with `NullProxyError`. -/
theorem Proxy.null_call_trips_assert :
    Proxy.null.call sampleWorld false "f" [] sampleStart = (.error .assertFailed, sampleStart)
    ∧ (Proxy.null.call sampleWorld false "f" [] sampleStart).1
        ≠ .error (.thrown .NullProxyError) := by
  have h : Proxy.null.call sampleWorld false "f" [] sampleStart
      = (.error .assertFailed, sampleStart) := rfl
  refine ⟨h, ?_⟩
  rw [h]
  intro hc
  cases hc

/-- C6, amended: on the default-constructed proxy every dynamic operation (`call` with
any name and arguments, the typed `call`, `get`, `set`, `operator()`, `convert`) ends
without a value and without reaching a handle, an environment or an `Object`: the state
and the trace are untouched. The failure is not a thrown error: it is the failed
`assert(handle)` or the dereference of a null pointer; `call` on `Proxy` arguments only
(also none) fails the assertion when assertions are compiled in. -/
theorem Proxy.null_operations (W : World σ) (ndebug : Bool) (n : String)
    (args : List Any) (v : Any) (T : Target) (s : Sys σ) :
    (∃ f, (f = .assertFailed ∨ f = .nullDeref)
        ∧ Proxy.null.call W ndebug n args s = (.error f, s))
    ∧ (∃ f, (f = .assertFailed ∨ f = .nullDeref)
        ∧ Proxy.null.callTyped W ndebug T n args s = (.error f, s))
    ∧ (∃ f, (f = .assertFailed ∨ f = .nullDeref)
        ∧ Proxy.null.get W ndebug T n s = (.error f, s))
    ∧ (∃ f, (f = .assertFailed ∨ f = .nullDeref)
        ∧ Proxy.null.set W ndebug n v s = (.error f, s))
    ∧ (∃ f, (f = .assertFailed ∨ f = .nullDeref)
        ∧ Proxy.null.operatorCall W ndebug args s = (.error f, s))
    ∧ Proxy.null.convert W T s = (.error .nullDeref, s)
    ∧ (∀ ps : List Proxy,
        Proxy.null.call W false n (ps.map Any.proxy) s = (.error .assertFailed, s)) := by
  have hcall : ∀ (m : String) (as : List Any),
      ∃ f, (f = Failure.assertFailed ∨ f = Failure.nullDeref)
        ∧ Proxy.null.call W ndebug m as s = (.error f, s) := by
    intro m as
    rcases proxyArgs_none W as s with ⟨qs, hq⟩ | hq
    · cases ndebug with
      | false =>
        exact ⟨.assertFailed, Or.inl rfl, by
          simp [Proxy.call, Proxy.null, Proxy.getEnvironment, Proxy.getHandle, hq]⟩
      | true =>
        exact ⟨.nullDeref, Or.inr rfl, by
          simp [Proxy.call, Proxy.null, Proxy.getEnvironment, Proxy.getHandle, hq]⟩
    · exact ⟨.nullDeref, Or.inr rfl, by
        simp [Proxy.call, Proxy.null, Proxy.getEnvironment, Proxy.getHandle, hq]⟩
  refine ⟨hcall n args, ?_, ?_, ?_, hcall "()" args, rfl, ?_⟩
  · obtain ⟨f, hf, hc⟩ := hcall n args
    exact ⟨f, hf, by simp [Proxy.callTyped, hc]⟩
  · obtain ⟨f, hf, hc⟩ := hcall ("get:" ++ n) []
    exact ⟨f, hf, by simp [Proxy.get, Proxy.callTyped, hc]⟩
  · obtain ⟨f, hf, hc⟩ := hcall ("set:" ++ n) [v]
    exact ⟨f, hf, by simp [Proxy.set, hc]⟩
  · intro ps
    have hp : ∀ (l : List Proxy), proxyArgs W none (l.map Any.proxy) s = (.ok l, s) := by
      intro l
      induction l with
      | nil => rfl
      | cons a rest ih => simp [proxyArgs, Detail.makeProxy, ih]
    simp [Proxy.call, Proxy.null, Proxy.getEnvironment, Proxy.getHandle, hp ps]

/-- C7: `p.set(n, v)` is `p.call("set:" + n, v)` with the single argument `v` and the
resulting proxy dropped, and `p(args...)` returns exactly what `p.call("()", args...)`
returns, with the same state and trace; on a receiver with handle `h` a `Proxy`
argument list reaches `h` as it is: same proxies, same number, same order. -/
theorem Proxy.set_and_operatorCall_spec (W : World σ) (ndebug : Bool) (p : Proxy)
    (n : String) (v : Any) (args : List Any) (s : Sys σ) :
    p.set W ndebug n v s =
        (match p.call W ndebug ("set:" ++ n) [v] s with
         | (.error f, s1) => (.error f, s1)
         | (.ok _, s1) => (.ok (), s1))
    ∧ p.operatorCall W ndebug args s = p.call W ndebug "()" args s
    ∧ (∀ (E : Option EnvId) (h : HandleId) (a : Proxy),
        (Proxy.mk E (some h)).set W ndebug n (.proxy a) s =
          match handleCall W h ("set:" ++ n) [a] s with
          | (.error f, s1) => (.error f, s1)
          | (.ok _, s1) => (.ok (), s1))
    ∧ (∀ (E : Option EnvId) (h : HandleId) (ps : List Proxy),
        (Proxy.mk E (some h)).operatorCall W ndebug (ps.map Any.proxy) s =
          handleCall W h "()" ps s) := by
  refine ⟨rfl, rfl, ?_, ?_⟩
  · intro E h a
    simp only [Proxy.set, Proxy.call, proxyArgs, Detail.makeProxy, Proxy.getHandle]
  · intro E h ps
    have hp : ∀ (l : List Proxy), proxyArgs W E (l.map Any.proxy) s = (.ok l, s) := by
      intro l
      induction l with
      | nil => rfl
      | cons a rest ih => simp [proxyArgs, Detail.makeProxy, ih]
    simp only [Proxy.operatorCall, Proxy.call, Proxy.getEnvironment, Proxy.getHandle, hp ps]

end Pothos

/-! ## Theorems about the block registry -/

namespace Pothos.BlockRegistry

theorem canonicalPath_injective (a b : String) (h : canonicalPath a = canonicalPath b) :
    a = b := by
  unfold canonicalPath at h
  have hd := congrArg String.data h
  simp only [String.data_append] at hd
  exact String.ext (List.append_cancel_left hd)

theorem Registry.mem_of_find (reg : Registry) (key : String) (f : Callable)
    (h : reg.find key = some f) : (key, f) ∈ reg.table := by
  unfold Registry.find at h
  rcases hf : reg.table.find? (fun e => e.1 == key) with _ | e
  · simp [hf] at h
  · simp only [hf, Option.map_some', Option.some.injEq] at h
    have hk := List.find?_some hf
    have hm := List.mem_of_find?_eq_some hf
    simp only [beq_iff_eq] at hk
    rcases e with ⟨k, g⟩
    simp only at hk h
    subst hk h
    exact hm

theorem Registry.find_append_new (table : List (String × Callable))
    (logged logged1 : List RegistrationError) (key : String) (f : Callable)
    (h : (Registry.mk table logged).find key = none) :
    (Registry.mk (table ++ [(key, f)]) logged1).find key = some f := by
  unfold Registry.find at h ⊢
  simp only [Option.map_eq_none'] at h
  simp [List.find?_append, h]

/-- Every entry of the table after a sequence of registrations was there before or
comes from a registration whose path is well formed and whose return type is accepted. -/
theorem registerAll_table (wellFormed : String → Bool) (history : List (String × Callable)) :
    ∀ (reg : Registry) (e : String × Callable), e ∈ (registerAll wellFormed history reg).table →
      e ∈ reg.table ∨ ∃ r ∈ history, e = (canonicalPath r.1, r.2)
        ∧ wellFormed r.1 = true ∧ acceptedReturnType r.2.returnType = true := by
  induction history with
  | nil => intro reg e he; exact Or.inl he
  | cons r rest ih =>
    intro reg e he
    rcases r with ⟨path, factory⟩
    simp only [registerAll] at he
    rcases ih _ e he with h1 | ⟨r1, hr1, h1⟩
    · unfold BlockRegistry at h1
      rcases hv : validate wellFormed path factory reg with _ | err
      · simp only [hv, List.mem_append, List.mem_singleton] at h1
        rcases h1 with h1 | h1
        · exact Or.inl h1
        · right
          refine ⟨(path, factory), List.mem_cons_self _ _, h1, ?_⟩
          unfold validate at hv
          split at hv
          · simp at hv
          · split at hv
            · simp at hv
            · split at hv
              · simp at hv
              · rename_i hw _ ha
                simp at hw ha
                exact ⟨hw, ha⟩
      · simp only [hv] at h1
        exact Or.inl h1
    · exact Or.inr ⟨r1, List.mem_cons_of_mem _ hr1, h1⟩

/-- C8: constructing `BlockRegistry(path, factory)` always returns normally. The
validation passes exactly when the path is well formed, no factory is registered at
`"/blocks" + path` and the return type is `Block*` or `Topology*`. When it passes, the
table grows by exactly the entry `"/blocks" + path ↦ factory`: that factory is then
found at `"/blocks" + path`, the block exists, and every other key answers as before.
On every validation failure the table is unchanged, every lookup answers as before
and the failure is logged. A path of `/foo/bar` registers to `/blocks/foo/bar`. -/
theorem BlockRegistry_registers_or_drops (wellFormed : String → Bool) (path : String)
    (factory : Callable) (reg : Registry) :
    (BlockRegistry wellFormed path factory reg).1 = .ok ()
    ∧ ((validate wellFormed path factory reg).isNone
        = (wellFormed path && !(reg.find ("/blocks" ++ path)).isSome
            && acceptedReturnType factory.returnType))
    ∧ (if (validate wellFormed path factory reg).isNone then
        (BlockRegistry wellFormed path factory reg).2.table
            = reg.table ++ [("/blocks" ++ path, factory)]
          ∧ (BlockRegistry wellFormed path factory reg).2.find ("/blocks" ++ path)
              = some factory
          ∧ (∀ key, key ≠ "/blocks" ++ path →
              (BlockRegistry wellFormed path factory reg).2.find key = reg.find key)
          ∧ doesBlockExist path (BlockRegistry wellFormed path factory reg).2 = true
          ∧ (BlockRegistry wellFormed path factory reg).2.logged = reg.logged
      else
        (BlockRegistry wellFormed path factory reg).2.table = reg.table
          ∧ (∀ key, (BlockRegistry wellFormed path factory reg).2.find key = reg.find key)
          ∧ (∀ q, doesBlockExist q (BlockRegistry wellFormed path factory reg).2
              = doesBlockExist q reg)
          ∧ ∃ e, (BlockRegistry wellFormed path factory reg).2.logged = reg.logged ++ [e])
    ∧ (∀ k : Nat, (BlockRegistry beginsWithSlash "/foo/bar" ⟨.Block, k⟩ Registry.empty).2.table
        = [("/blocks/foo/bar", ⟨.Block, k⟩)]) := by
  refine ⟨?_, ?_, ?_, fun _ => rfl⟩
  · unfold BlockRegistry
    cases validate wellFormed path factory reg <;> rfl
  · show _ = (wellFormed path && !doesBlockExist path reg
      && acceptedReturnType factory.returnType)
    unfold validate
    cases wellFormed path <;> cases doesBlockExist path reg <;>
      cases acceptedReturnType factory.returnType <;> rfl
  · rcases hv : validate wellFormed path factory reg with _ | err
    · have hfree : reg.find ("/blocks" ++ path) = none := by
        unfold validate at hv
        split at hv
        · simp at hv
        · split at hv
          · simp at hv
          · rename_i _ hd
            simp only [doesBlockExist, canonicalPath, Bool.not_eq_true] at hd
            cases hq : reg.find ("/blocks" ++ path) with
            | none => rfl
            | some g => simp [hq] at hd
      have hnew := Registry.find_append_new reg.table reg.logged reg.logged
        ("/blocks" ++ path) factory hfree
      have hother : ∀ key, key ≠ "/blocks" ++ path →
          (Registry.mk (reg.table ++ [("/blocks" ++ path, factory)]) reg.logged).find key
            = reg.find key := by
        intro key hkey
        have hk : ¬ ("/blocks" ++ path) = key := fun e => hkey e.symm
        unfold Registry.find
        rw [List.find?_append]
        cases reg.table.find? (fun e => e.1 == key) with
        | some e => rfl
        | none =>
          have hb : (("/blocks" ++ path) == key) = false := by simpa using hk
          simp [List.find?, hb]
      simp only [Option.isNone_none, if_true, BlockRegistry, hv, canonicalPath]
      exact ⟨trivial, hnew, hother, by simp [doesBlockExist, canonicalPath, hnew], trivial⟩
    · simp only [Option.isNone_some, Bool.false_eq_true, if_false, BlockRegistry, hv]
      exact ⟨trivial, fun _ => rfl, fun _ => rfl, err, rfl⟩

/-- C9: after any sequence of registrations in which every registration for `path` was
dropped for a malformed path or a disallowed return type (so that no factory has been
registered at `path`), `doesBlockExist(path)` is false and `make(path, args...)` fails
with `UnknownFactoryPathError` for every argument list, leaving the registry and the
collaborators as they were and invoking no factory. -/
theorem make_unknown_path (wellFormed : String → Bool)
    (invoke : Callable → List Any → σ → Except Failure Proxy × σ)
    (history : List (String × Callable)) (path : String) (args : List Any) (w : σ)
    (invoked : List (Callable × List Any))
    (hnone : ∀ r ∈ history, r.1 = path →
      wellFormed path = false ∨ acceptedReturnType r.2.returnType = false) :
    doesBlockExist path (registerAll wellFormed history Registry.empty) = false
    ∧ make invoke path args ⟨registerAll wellFormed history Registry.empty, w, invoked⟩
        = (.error (.thrown .UnknownFactoryPathError),
            ⟨registerAll wellFormed history Registry.empty, w, invoked⟩) := by
  have hfind : (registerAll wellFormed history Registry.empty).find (canonicalPath path)
      = none := by
    rcases hf : (registerAll wellFormed history Registry.empty).find (canonicalPath path)
      with _ | f
    · rfl
    · exfalso
      have hm := Registry.mem_of_find _ _ _ hf
      rcases registerAll_table wellFormed history Registry.empty _ hm with h0 | ⟨r, hr, he, hw, ha⟩
      · simp [Registry.empty] at h0
      · simp only [Prod.mk.injEq] at he
        have hp : r.1 = path := (canonicalPath_injective _ _ he.1).symm
        rcases hnone r hr hp with h1 | h1
        · rw [← hp, hw] at h1
          exact Bool.noConfusion h1
        · rw [ha] at h1
          exact Bool.noConfusion h1
  refine ⟨by simp [doesBlockExist, hfind], ?_⟩
  simp only [make, hfind]

/-- C9, at a concrete input: after `/math/adder` was registered and the registration of
`/bad` was dropped for its return type, `/bad` is unknown. -/
theorem make_unknown_path_witness :
    (∀ r ∈ [("/math/adder", Callable.mk .Block 1), ("/bad", Callable.mk (.other 7) 2)],
      r.1 = "/bad" →
        beginsWithSlash "/bad" = false ∨ acceptedReturnType r.2.returnType = false)
    ∧ doesBlockExist "/bad"
        (registerAll beginsWithSlash
          [("/math/adder", Callable.mk .Block 1), ("/bad", Callable.mk (.other 7) 2)]
          Registry.empty) = false
    ∧ make (fun _ _ (w : Nat) => (.ok ⟨some 0, some w⟩, w + 1)) "/bad"
        [Any.value ⟨1, 2⟩, Any.value ⟨1, 3⟩]
        ⟨registerAll beginsWithSlash
          [("/math/adder", Callable.mk .Block 1), ("/bad", Callable.mk (.other 7) 2)]
          Registry.empty, 10, []⟩
        = (.error (.thrown .UnknownFactoryPathError),
            ⟨registerAll beginsWithSlash
              [("/math/adder", Callable.mk .Block 1), ("/bad", Callable.mk (.other 7) 2)]
              Registry.empty, 10, []⟩) :=
  ⟨by decide,
    make_unknown_path beginsWithSlash _ _ "/bad" _ 10 [] (by decide)⟩

end Pothos.BlockRegistry

/-! ## Theorems about the affinity panel -/

namespace PothosGui

theorem loadAt_length_append (config : String) (tabs : List Tab) (t : Tab) :
    loadAt config tabs.length (tabs ++ [t]) = tabs ++ [⟨t.text, ⟨config⟩⟩] := by
  induction tabs with
  | nil => rfl
  | cons a rest ih => simp [loadAt, ih]

theorem tabTextExists_iff (zoneName : String) (tabs : List Tab) :
    tabTextExists zoneName tabs = true ↔ zoneName ∈ tabs.map (fun t => t.text) := by
  induction tabs with
  | nil => simp [tabTextExists]
  | cons a rest ih =>
    by_cases h : a.text = zoneName
    · simp [tabTextExists, h]
    · have h1 : ¬ zoneName = a.text := fun e => h e.symm
      simp [tabTextExists, h, h1, ih]

/-- The tabs after `createZoneFromName`: one tab with the given name after the
existing ones, whatever the outcome; the entry field is not touched. -/
theorem AffinityPanel.createZoneFromName_tabs (p : AffinityPanel) (C : Collaborators)
    (zoneName : String) :
    (∃ e, (p.createZoneFromName C zoneName).2.tabs = p.tabs ++ [⟨zoneName, e⟩])
    ∧ (p.createZoneFromName C zoneName).2.zoneEntry = p.zoneEntry := by
  unfold AffinityPanel.createZoneFromName
  simp only
  have h2 : ∀ q : AffinityPanel,
      q = (if zoneName = variantToString
              ((p.addTab ⟨C.newConfig⟩ zoneName).settings.value "AffinityZones/currentZone")
            then (p.addTab ⟨C.newConfig⟩ zoneName).setCurrentIndex p.tabs.length
            else p.addTab ⟨C.newConfig⟩ zoneName) →
      q.tabs = p.tabs ++ [⟨zoneName, ⟨C.newConfig⟩⟩] ∧ q.zoneEntry = p.zoneEntry := by
    intro q hq
    subst hq
    split <;> exact ⟨rfl, rfl⟩
  generalize hq : (if zoneName = variantToString
              ((p.addTab ⟨C.newConfig⟩ zoneName).settings.value "AffinityZones/currentZone")
            then (p.addTab ⟨C.newConfig⟩ zoneName).setCurrentIndex p.tabs.length
            else p.addTab ⟨C.newConfig⟩ zoneName) = q
  obtain ⟨ht, hz⟩ := h2 q hq.symm
  split
  · exact ⟨⟨_, ht⟩, hz⟩
  · split
    · refine ⟨?_, hz⟩
      simp only [AffinityPanel.loadFromConfig, ht]
      exact ⟨_, loadAt_length_append _ p.tabs ⟨zoneName, ⟨C.newConfig⟩⟩⟩
    · exact ⟨⟨_, ht⟩, hz⟩
    · exact ⟨⟨_, ht⟩, hz⟩

/-- C10: `handleCreateZone` always clears the entry field. When the entered name is
empty or is the text of an existing tab, the tabs, the current index and the settings
are left as they were (no editor is created, no state is saved) and the handler
returns normally; otherwise exactly one tab with the entered name is appended after
the existing tabs. Hence tab names that are pairwise distinct and non-empty stay so. -/
theorem AffinityPanel.handleCreateZone_tabs (p : AffinityPanel) (C : Collaborators) :
    (p.handleCreateZone C).2.zoneEntry = ""
    ∧ (if p.zoneEntry = "" ∨ p.zoneEntry ∈ p.tabs.map (fun t => t.text) then
        (p.handleCreateZone C).1 = .ok ()
          ∧ (p.handleCreateZone C).2.tabs = p.tabs
          ∧ (p.handleCreateZone C).2.currentIndex = p.currentIndex
          ∧ (p.handleCreateZone C).2.settings = p.settings
      else
        ∃ e, (p.handleCreateZone C).2.tabs = p.tabs ++ [⟨p.zoneEntry, e⟩])
    ∧ (zoneNamesValid p.tabs → zoneNamesValid (p.handleCreateZone C).2.tabs) := by
  have hcz := AffinityPanel.createZoneFromName_tabs
    ⟨"", p.tabs, p.currentIndex, p.settings, p.toolTips, p.logged⟩ C p.zoneEntry
  obtain ⟨⟨e, he⟩, hz⟩ := hcz
  by_cases hempty : p.zoneEntry = ""
  · have hi : p.zoneEntry.isEmpty = true := (String.isEmpty_iff _).2 hempty
    have hval : p.handleCreateZone C
        = (.ok (), ⟨"", p.tabs, p.currentIndex, p.settings, p.toolTips, p.logged⟩) := by
      simp only [AffinityPanel.handleCreateZone, if_pos hi]
    rw [hval]
    exact ⟨rfl, by simp [hempty], fun h => h⟩
  · have hi : ¬ p.zoneEntry.isEmpty = true := fun h => hempty ((String.isEmpty_iff _).1 h)
    by_cases hdup : p.zoneEntry ∈ p.tabs.map (fun t => t.text)
    · have hx : tabTextExists p.zoneEntry p.tabs = true := (tabTextExists_iff _ _).2 hdup
      have hval : p.handleCreateZone C
          = (.ok (), AffinityPanel.handleErrorMessage
              ⟨"", p.tabs, p.currentIndex, p.settings, p.toolTips, p.logged⟩
              (p.zoneEntry ++ " already exists!")) := by
        simp only [AffinityPanel.handleCreateZone, if_neg hi, if_pos hx]
      rw [hval]
      exact ⟨rfl, by simp [hdup, AffinityPanel.handleErrorMessage], fun h => h⟩
    · have hx : ¬ tabTextExists p.zoneEntry p.tabs = true :=
        fun h => hdup ((tabTextExists_iff _ _).1 h)
      have htabs : (p.handleCreateZone C).2.tabs = p.tabs ++ [⟨p.zoneEntry, e⟩]
          ∧ (p.handleCreateZone C).2.zoneEntry = "" := by
        simp only [AffinityPanel.handleCreateZone, if_neg hi, if_neg hx]
        rcases hr : AffinityPanel.createZoneFromName
          ⟨"", p.tabs, p.currentIndex, p.settings, p.toolTips, p.logged⟩ C p.zoneEntry
          with ⟨r, p2⟩
        rw [hr] at he hz
        cases r with
        | error f => exact ⟨he, hz⟩
        | ok i =>
          simp only [AffinityPanel.saveAffinityZoneEditorsState,
            AffinityPanel.setCurrentIndex]
          exact ⟨he, hz⟩
      refine ⟨htabs.2, ?_, ?_⟩
      · simp only [hempty, hdup, or_self, if_false]
        exact ⟨e, htabs.1⟩
      · intro hv
        rw [htabs.1]
        unfold zoneNamesValid at hv ⊢
        simp only [List.map_append, List.map_cons, List.map_nil, List.mem_append,
          List.mem_singleton, not_or]
        refine ⟨?_, hv.2, fun h => hempty h.symm⟩
        rw [List.nodup_append]
        refine ⟨hv.1, List.nodup_singleton _, ?_⟩
        intro a ha hb
        simp only [List.mem_singleton] at hb
        subst hb
        exact hdup ha

/-- C10, at a concrete input: the tabs `default` and `fast` are valid zone names, and
they stay valid when the new name `slow` is entered. -/
theorem AffinityPanel.handleCreateZone_tabs_witness :
    zoneNamesValid samplePanelNew.tabs
    ∧ zoneNamesValid (samplePanelNew.handleCreateZone sampleCollaborators).2.tabs :=
  have h : zoneNamesValid samplePanelNew.tabs := by decide
  ⟨h, (AffinityPanel.handleCreateZone_tabs samplePanelNew sampleCollaborators).2.2 h⟩

end PothosGui
